import Mathlib

/-!
Shallow embedding of the MiniSim Python engine (src/python/minisim/sim.py and
src/python/main.py) over exact rational arithmetic.  Python floats are modelled
as `ℚ`; `round(x, 3)` is modelled as rounding `1000*x` to the nearest integer
(ties broken upward here; Python breaks ties to even — no claim below depends
on tie direction).  Machine integers of the RNG are modelled as `ℕ` with
explicit `% 2^64`.
-/

namespace MiniSim

/-! ## Deterministic RNG (class Rng, sim.py lines 23-43) -/

def RNG_MOD : ℕ := 2 ^ 64

def RNG_A : ℕ := 6364136223846793005

def RNG_C : ℕ := 1442695040888963407

/-- Rng.__init__: `s = seed % MOD`; Python `%` with a positive modulus is
already non-negative, matching `Int.emod`, so the `s + MOD` branch is dead. -/
def rngInit (seed : ℤ) : ℕ := (seed % (RNG_MOD : ℤ)).toNat

/-- Rng.next: `state = (A * state + C) % MOD`, returning the new state. -/
def rngNext (state : ℕ) : ℕ := (RNG_A * state + RNG_C) % RNG_MOD

/-- Rng.uniform: advance once and return `state / 2^64` (exact rational). -/
def rngUniform (state : ℕ) : ℕ × ℚ :=
  let s := rngNext state
  (s, (s : ℚ) / (RNG_MOD : ℚ))

/-! ## Agent (sim.py lines 16-20). `preferences` is a length-3 list,
modelled as an ordered triple. -/

structure Agent where
  rho : ℚ
  pi : ℚ
  preferences : ℚ × ℚ × ℚ
deriving DecidableEq

/-- Indexing `t[0]`, `t[1]`, `t[2]` into a preference triple; indices other
than 0/1/2 never occur at call sites (Python would raise IndexError). -/
def tget (t : ℚ × ℚ × ℚ) : ℕ → ℚ
  | 0 => t.1
  | 1 => t.2.1
  | 2 => t.2.2
  | _ + 3 => 0

/-! ## Interaction model (sim.py lines 46-129) -/

/-- _locate (sim.py 46-51): joint state (va, vb) ↦ flat index (va-1)*3+(vb-1);
all call sites pass values in {1,2,3}, where ℕ truncated subtraction agrees
with Python int subtraction. -/
def locate (fromPair toPair : ℕ × ℕ) : ℕ × ℕ :=
  ((fromPair.1 - 1) * 3 + (fromPair.2 - 1), (toPair.1 - 1) * 3 + (toPair.2 - 1))

/-- _normalize_triple (sim.py 54-58). -/
def normalizeTriple (a b c : ℚ) : ℚ × ℚ × ℚ :=
  let total := a + b + c
  if total ≤ 0 then (1/3, 1/3, 1/3)
  else (a / total, b / total, c / total)

/-- _choice_probabilities (sim.py 61-65). -/
def choiceProbabilities (resistance persuasion : ℚ) : ℚ × ℚ × ℚ :=
  let keep := resistance * (1 - persuasion)
  let change := (1 - resistance) * persuasion
  let alt := resistance * persuasion
  normalizeTriple keep change alt

/-- _build_disagreement_map (sim.py 68-81): the nine (from,to) keyed weights,
in insertion order. -/
def buildDisagreementMap (va vb : ℕ) (aliceProbs bobProbs : ℚ × ℚ × ℚ) :
    List ((ℕ × ℕ) × ℚ) :=
  [ (locate (va, vb) (va, vb), aliceProbs.1 * bobProbs.1),
    (locate (va, vb) (va, va), aliceProbs.1 * bobProbs.2.1),
    (locate (va, vb) (vb, vb), aliceProbs.2.1 * bobProbs.1),
    (locate (va, vb) (vb, va), aliceProbs.2.1 * bobProbs.2.1),
    (locate (va, vb) (va, 3), aliceProbs.1 * bobProbs.2.2),
    (locate (va, vb) (3, vb), aliceProbs.2.2 * bobProbs.1),
    (locate (va, vb) (3, 3), aliceProbs.2.2 * bobProbs.2.2),
    (locate (va, vb) (vb, 3), aliceProbs.2.1 * bobProbs.2.2),
    (locate (va, vb) (3, va), aliceProbs.2.2 * bobProbs.2.1) ]

/-- Dict lookup `disagreements.get((row, col))` over the merged association
list; the two merged maps have disjoint key sets (rows 1 and 3), so
first-match lookup agrees with Python's `{**d12, **d21}` merge. -/
def lookupQ : List ((ℕ × ℕ) × ℚ) → ℕ × ℕ → Option ℚ
  | [], _ => none
  | (k, w) :: rest, key => if key = k then some w else lookupQ rest key

/-- Matrix cell rule of the loop in sim.py 92-102: the dict value when the
(row, col) key is present, else identity. -/
def matrixFromDisagreements (d : List ((ℕ × ℕ) × ℚ)) (row col : ℕ) : ℚ :=
  match lookupQ d (row, col) with
  | some w => w
  | none => if row = col then 1 else 0

/-- _transition_matrix (sim.py 84-103).  Note the source passes `bob_probs`
twice on line 89 (`_build_disagreement_map(2, 1, bob_probs, bob_probs)`);
this embedding reproduces that faithfully. -/
def transitionMatrix (alice bob : Agent) (row col : ℕ) : ℚ :=
  let aliceProbs := choiceProbabilities alice.rho bob.pi
  let bobProbs := choiceProbabilities bob.rho alice.pi
  matrixFromDisagreements
    (buildDisagreementMap 1 2 aliceProbs bobProbs ++
      buildDisagreementMap 2 1 bobProbs bobProbs) row col

/-- Python `round(x, 3)` on a rational: nearest multiple of 1/1000. -/
def round3 (x : ℚ) : ℚ := ((round (1000 * x) : ℤ) : ℚ) / 1000

/-- Flattened joint mass `v` of _talk (sim.py 108-109): entry `k = 3*i + j`
holds `alice.preferences[i] * bob.preferences[j]`. -/
def talkV (alice bob : Agent) (k : ℕ) : ℚ :=
  tget alice.preferences (k / 3) * tget bob.preferences (k % 3)

/-- Vector-matrix product `r = v @ T` of _talk (sim.py 112). -/
def talkR (alice bob : Agent) (j : ℕ) : ℚ :=
  ∑ k ∈ Finset.range 9, talkV alice bob k * transitionMatrix alice bob k j

/-- Alice's rounded row sums of the reshaped result (sim.py 113, 116):
`result[i][j] = r[i*3+j]`. -/
def talkAliceVec (alice bob : Agent) (i : ℕ) : ℚ :=
  round3 (∑ j ∈ Finset.range 3, talkR alice bob (i * 3 + j))

/-- Bob's rounded column sums of the reshaped result (sim.py 113, 117). -/
def talkBobVec (alice bob : Agent) (j : ℕ) : ℚ :=
  round3 (∑ i ∈ Finset.range 3, talkR alice bob (i * 3 + j))

/-- _talk (sim.py 106-129): joint outer product, flat vector-matrix product,
row/column sums rounded to 3 decimals, then per-agent renormalization with a
uniform fallback on a non-positive sum. -/
def talk (alice bob : Agent) : (ℚ × ℚ × ℚ) × (ℚ × ℚ × ℚ) :=
  let aSum := talkAliceVec alice bob 0 + talkAliceVec alice bob 1 + talkAliceVec alice bob 2
  let bSum := talkBobVec alice bob 0 + talkBobVec alice bob 1 + talkBobVec alice bob 2
  let alicePrefs :=
    if aSum ≤ 0 then ((1:ℚ)/3, (1:ℚ)/3, (1:ℚ)/3)
    else (talkAliceVec alice bob 0 / aSum, talkAliceVec alice bob 1 / aSum,
      talkAliceVec alice bob 2 / aSum)
  let bobPrefs :=
    if bSum ≤ 0 then ((1:ℚ)/3, (1:ℚ)/3, (1:ℚ)/3)
    else (talkBobVec alice bob 0 / bSum, talkBobVec alice bob 1 / bSum,
      talkBobVec alice bob 2 / bSum)
  (alicePrefs, bobPrefs)

/-! ## Pairing, averaging, statistics, votes (sim.py 132-168, 184-258) -/

/-- _generate_all_pairs (sim.py 132-133): `[(i,j) for i in range(n-1) for j
in range(i+1, n)]`. -/
def generateAllPairs (n : ℕ) : List (ℕ × ℕ) :=
  ((List.range (n - 1)).map fun i =>
    (List.range' (i + 1) (n - (i + 1))).map fun j => (i, j)).flatten

/-- _average_prefs (sim.py 136-143): component-wise mean; `[0,0,0]` on an
empty list (the division below is then never reached in the source). -/
def averagePrefs (l : List (ℚ × ℚ × ℚ)) : ℚ × ℚ × ℚ :=
  if l = [] then (0, 0, 0)
  else ((l.map fun p => p.1).sum / l.length,
        (l.map fun p => p.2.1).sum / l.length,
        (l.map fun p => p.2.2).sum / l.length)

/-- Stats (sim.py 9-13): `vote_results` is a Python dict built by repeated
increment; modelled as an insertion-ordered association list. -/
structure Stats where
  total_agents : ℕ
  vote_results : List (ℕ × ℕ)
  average_preferences : ℚ × ℚ × ℚ
  agent_preferences : List (ℚ × ℚ × ℚ)
deriving DecidableEq

/-- Per-component 3-decimal rounding of a triple (sim.py 147, 149). -/
def round3T (t : ℚ × ℚ × ℚ) : ℚ × ℚ × ℚ := (round3 t.1, round3 t.2.1, round3 t.2.2)

/-- _get_statistics (sim.py 146-155); `vote_results` starts empty and is
filled by the caller. -/
def getStatistics (agents : List Agent) : Stats :=
  let ap := agents.map fun a => round3T a.preferences
  { total_agents := agents.length
    vote_results := []
    average_preferences := round3T (averagePrefs ap)
    agent_preferences := ap }

/-- Cumulative-mass vote rule (sim.py 196-202 and 248-254). -/
def voteOption (p : ℚ × ℚ × ℚ) (u : ℚ) : ℕ :=
  if u ≤ p.1 then 0 else if u ≤ p.1 + p.2.1 then 1 else 2

/-- Dict increment `vote_results[idx] = vote_results.get(idx, 0) + 1`,
preserving Python dict insertion order. -/
def bumpVote (m : List (ℕ × ℕ)) (k : ℕ) : List (ℕ × ℕ) :=
  match m with
  | [] => [(k, 1)]
  | (k2, c) :: rest => if k2 = k then (k2, c + 1) :: rest else (k2, c) :: bumpVote rest k

/-- Loop body of the vote tally (sim.py 195-203): one uniform draw for the
agent, then the cumulative-mass assignment and the dict increment. -/
def voteStep (acc : List (ℕ × ℕ) × ℕ) (a : Agent) : List (ℕ × ℕ) × ℕ :=
  let s := rngNext acc.2
  let u := (s : ℚ) / (RNG_MOD : ℚ)
  (bumpVote acc.1 (voteOption a.preferences u), s)

/-- Vote tally loop (sim.py 194-204 / 246-256): one uniform draw per agent in
agent-index order, threading the driver RNG state. -/
def tallyVotes (pop : List Agent) (state : ℕ) : List (ℕ × ℕ) × ℕ :=
  pop.foldl voteStep ([], state)

/-! ## Batch update engine and driver (sim.py 158-258) -/

/-- Fallback agent for out-of-range list indexing; pairs produced by
`generateAllPairs pop.length` are always in range, so it is never consulted
on the driver's path (Python would raise IndexError). -/
def defaultAgent : Agent := ⟨0, 0, (0, 0, 0)⟩

/-- Flattened contributions of a sequence of pairs, in processing order:
`[(i, talk_i), (j, talk_j), ...]` exactly as _talk_batch (sim.py 158-168)
and the sequential loop (sim.py 212-217) emit them. -/
def talkContribs (pop : List Agent) (pairs : List (ℕ × ℕ)) :
    List (ℕ × (ℚ × ℚ × ℚ)) :=
  (pairs.map fun ij =>
    let t := talk (pop.getD ij.1 defaultAgent) (pop.getD ij.2 defaultAgent)
    [(ij.1, t.1), (ij.2, t.2)]).flatten

/-- Python `updates[idx]`: the contributions for one agent index, in
arrival order (`updates.setdefault(idx, []).append(...)`). -/
def updatesFor (contribs : List (ℕ × (ℚ × ℚ × ℚ))) (idx : ℕ) :
    List (ℚ × ℚ × ℚ) :=
  (contribs.filter fun c => c.1 = idx).map fun c => c.2

/-- Population replacement (sim.py 234-242): `idx in updates` holds exactly
when the index received at least one contribution. -/
def applyUpdates (pop : List Agent) (contribs : List (ℕ × (ℚ × ℚ × ℚ))) :
    List Agent :=
  pop.mapIdx fun idx a =>
    let us := updatesFor contribs idx
    if us = [] then a else { a with preferences := averagePrefs us }

/-- Contiguous slices `pairs[idx : idx + chunk_size]` for
`idx in range(0, len(pairs), chunk_size)`; fuel-structured recursion (each
step consumes at least one element when `cs > 0`). -/
def chunksOfAux (cs : ℕ) : ℕ → List (ℕ × ℕ) → List (List (ℕ × ℕ))
  | 0, _ => []
  | _, [] => []
  | fuel + 1, l => l.take cs :: chunksOfAux cs fuel (l.drop cs)

def chunksOf (cs : ℕ) (l : List (ℕ × ℕ)) : List (List (ℕ × ℕ)) :=
  chunksOfAux cs l.length l

/-- One tick on the sequential path (sim.py 206-242, procs ≤ 1): process the
chunked pair list in order against start-of-tick snapshots, then replace the
population. -/
def tick (cs : ℕ) (pop : List Agent) : List Agent :=
  let pairs := generateAllPairs pop.length
  applyUpdates pop (talkContribs pop (chunksOf cs pairs).flatten)

/-- One tick on the parallel path (sim.py 218-232): batches carry
start-of-tick agent snapshots and `imap_unordered` may deliver batch results
in any order, modelled by an arbitrary reordering `sched` of the batch
list. -/
def tickSched (cs : ℕ) (sched : List (List (ℕ × ℕ)) → List (List (ℕ × ℕ)))
    (pop : List Agent) : List Agent :=
  let pairs := generateAllPairs pop.length
  let batches := sched (chunksOf cs pairs)
  applyUpdates pop ((batches.map fun b => talkContribs pop b).flatten)

/-- Seeding loop (sim.py 184-189): three uniform draws per agent, in
agent-index order; preferences start as `[p, 1-p, 0]`. -/
def seedPopAux : ℕ → ℕ → List Agent × ℕ
  | 0, st => ([], st)
  | n + 1, st =>
    let s1 := rngNext st
    let s2 := rngNext s1
    let s3 := rngNext s2
    let p : ℚ := (s3 : ℚ) / (RNG_MOD : ℚ)
    let a : Agent := ⟨(s1 : ℚ) / (RNG_MOD : ℚ), (s2 : ℚ) / (RNG_MOD : ℚ), (p, 1 - p, 0)⟩
    let rest := seedPopAux n s3
    (a :: rest.1, rest.2)

/-- Main loop of run (sim.py 206-258): per iteration, tick then snapshot then
vote; returns the last snapshot (the pre-loop snapshot when `n = 0`). -/
def runLoop (cs : ℕ) : ℕ → List Agent → ℕ → Stats → Stats
  | 0, _, _, stats => stats
  | n + 1, pop, st, _ =>
    let pop2 := tick cs pop
    let stats2 := getStatistics pop2
    let vt := tallyVotes pop2 st
    runLoop cs n pop2 vt.2 { stats2 with vote_results := vt.1 }

/-- Body of run after validation (sim.py 181-258), sequential path. -/
def runPure (agents iterations : ℕ) (seed : ℤ) (cs : ℕ) : Stats :=
  let s0 := rngInit seed
  let seeded := seedPopAux agents s0
  let stats0 := getStatistics seeded.1
  let vt0 := tallyVotes seeded.1 seeded.2
  runLoop cs iterations seeded.1 vt0.2 { stats0 with vote_results := vt0.1 }

/-- Main loop with the parallel path's batch scheduling (one reordering per
iteration, indexed by the remaining iteration count). -/
def runLoopSched (cs : ℕ)
    (sched : ℕ → List (List (ℕ × ℕ)) → List (List (ℕ × ℕ))) :
    ℕ → List Agent → ℕ → Stats → Stats
  | 0, _, _, stats => stats
  | n + 1, pop, st, _ =>
    let pop2 := tickSched cs (sched n) pop
    let stats2 := getStatistics pop2
    let vt := tallyVotes pop2 st
    runLoopSched cs sched n pop2 vt.2 { stats2 with vote_results := vt.1 }

/-- Body of run on the parallel path (`procs > 1`), with the pool's
completion order abstracted as `sched`. -/
def runPureSched (agents iterations : ℕ) (seed : ℤ) (cs : ℕ)
    (sched : ℕ → List (List (ℕ × ℕ)) → List (List (ℕ × ℕ))) : Stats :=
  let s0 := rngInit seed
  let seeded := seedPopAux agents s0
  let stats0 := getStatistics seeded.1
  let vt0 := tallyVotes seeded.1 seeded.2
  runLoopSched cs sched iterations seeded.1 vt0.2 { stats0 with vote_results := vt0.1 }

/-- run (sim.py 171-258): the four assert statements on lines 175-179 reject
invalid input before the RNG is created or any work happens; modelled as an
`Option` guard around the pure body. -/
def run (agents iterations : ℤ) (seed : ℤ) (chunk_size procs : ℤ) : Option Stats :=
  if 0 < agents ∧ 0 ≤ iterations ∧ 0 < chunk_size ∧ 1 ≤ procs then
    some (runPure agents.toNat iterations.toNat seed chunk_size.toNat)
  else none

/-- Population after `n` ticks of a run seeded from `seed` (the tick loop of
sim.py 206-242 acts on the population independently of snapshots/votes). -/
def popTrace (agents : ℕ) (seed : ℤ) (cs : ℕ) (n : ℕ) : List Agent :=
  (tick cs)^[n] (seedPopAux agents (rngInit seed)).1

/-- Population sizes for which sweep (sim.py 261-269) performs a run, in
emission order: `range(2, max_agents + 1)`.  The source's sweep takes only
`max_agents` — there is no minimum-size parameter. -/
def sweepSizes (max_agents : ℕ) : List ℕ := List.range' 2 (max_agents - 1)

/-! ## Invariant predicates -/

/-- Preference-triple invariant: non-negative components summing to 1. -/
def PrefOK (t : ℚ × ℚ × ℚ) : Prop :=
  0 ≤ t.1 ∧ 0 ≤ t.2.1 ∧ 0 ≤ t.2.2 ∧ t.1 + t.2.1 + t.2.2 = 1

/-- Trait invariant from seeding: resistance and persuasion in [0, 1). -/
def TraitsOK (a : Agent) : Prop :=
  0 ≤ a.rho ∧ a.rho < 1 ∧ 0 ≤ a.pi ∧ a.pi < 1

def AgentOK (a : Agent) : Prop := TraitsOK a ∧ PrefOK a.preferences

/-! ## Helper lemmas: RNG -/

theorem rngNext_lt (state : ℕ) : rngNext state < RNG_MOD :=
  Nat.mod_lt _ (by norm_num [RNG_MOD])

theorem uniform_mem_Ico (state : ℕ) :
    0 ≤ ((rngNext state : ℚ) / (RNG_MOD : ℚ)) ∧
      ((rngNext state : ℚ) / (RNG_MOD : ℚ)) < 1 := by
  constructor
  · positivity
  · rw [div_lt_one (by norm_num [RNG_MOD])]
    exact_mod_cast rngNext_lt state

/-! ## Helper lemmas: rounding and normalization -/

theorem round3_nonneg {x : ℚ} (hx : 0 ≤ x) : 0 ≤ round3 x := by
  unfold round3
  have h : (0 : ℤ) ≤ round (1000 * x) := by
    rw [round_eq]
    exact Int.floor_nonneg.mpr (by linarith)
  positivity

theorem normalizeTriple_prefOK {a b c : ℚ} (ha : 0 ≤ a) (hb : 0 ≤ b) (hc : 0 ≤ c) :
    PrefOK (normalizeTriple a b c) := by
  simp only [normalizeTriple, PrefOK]
  split
  · norm_num
  · rename_i h
    push_neg at h
    refine ⟨by positivity, by positivity, by positivity, ?_⟩
    rw [div_add_div_same, div_add_div_same, div_self h.ne']

theorem normalizeTriple_sum (a b c : ℚ) :
    (normalizeTriple a b c).1 + (normalizeTriple a b c).2.1 +
      (normalizeTriple a b c).2.2 = 1 := by
  simp only [normalizeTriple]
  split
  · norm_num
  · rename_i h
    push_neg at h
    simp only
    rw [div_add_div_same, div_add_div_same, div_self h.ne']

theorem choiceProbabilities_sum (r p : ℚ) :
    (choiceProbabilities r p).1 + (choiceProbabilities r p).2.1 +
      (choiceProbabilities r p).2.2 = 1 :=
  normalizeTriple_sum _ _ _

theorem choiceProbabilities_prefOK {r p : ℚ} (hr0 : 0 ≤ r) (hr1 : r ≤ 1)
    (hp0 : 0 ≤ p) (hp1 : p ≤ 1) : PrefOK (choiceProbabilities r p) := by
  unfold choiceProbabilities
  exact normalizeTriple_prefOK (by nlinarith) (by nlinarith) (by nlinarith)

/-! ## Helper lemmas: lists, chunks, permutations -/

theorem chunksOfAux_flatten {cs : ℕ} (hcs : 0 < cs) :
    ∀ (fuel : ℕ) (l : List (ℕ × ℕ)), l.length ≤ fuel →
      (chunksOfAux cs fuel l).flatten = l := by
  intro fuel
  induction fuel with
  | zero =>
    intro l hl
    rw [Nat.le_zero, List.length_eq_zero] at hl
    subst hl
    rfl
  | succ fuel ih =>
    intro l hl
    match l with
    | [] => rfl
    | x :: xs =>
      have hstep : chunksOfAux cs (fuel + 1) (x :: xs)
          = (x :: xs).take cs :: chunksOfAux cs fuel ((x :: xs).drop cs) := rfl
      rw [hstep, List.flatten_cons, ih _ (by
        simp only [List.length_drop, List.length_cons] at hl ⊢
        omega)]
      exact List.take_append_drop cs (x :: xs)

theorem chunksOf_flatten {cs : ℕ} (hcs : 0 < cs) (l : List (ℕ × ℕ)) :
    (chunksOf cs l).flatten = l :=
  chunksOfAux_flatten hcs l.length l le_rfl

theorem flatten_perm {α : Type} {l₁ l₂ : List (List α)} (h : l₁.Perm l₂) :
    l₁.flatten.Perm l₂.flatten := by
  induction h with
  | nil => exact .refl _
  | cons x _ ih => simpa using ih.append_left x
  | swap x y l =>
    simp only [List.flatten_cons, ← List.append_assoc]
    exact List.perm_append_comm.append_right _
  | trans _ _ ih1 ih2 => exact ih1.trans ih2

theorem talkContribs_append (pop : List Agent) (l₁ l₂ : List (ℕ × ℕ)) :
    talkContribs pop (l₁ ++ l₂) = talkContribs pop l₁ ++ talkContribs pop l₂ := by
  simp [talkContribs]

theorem talkContribs_flatten (pop : List Agent) (l : List (List (ℕ × ℕ))) :
    talkContribs pop l.flatten = (l.map fun b => talkContribs pop b).flatten := by
  induction l with
  | nil => rfl
  | cons b l ih => rw [List.flatten_cons, talkContribs_append, List.map_cons,
      List.flatten_cons, ih]

theorem averagePrefs_perm {l₁ l₂ : List (ℚ × ℚ × ℚ)} (h : l₁.Perm l₂) :
    averagePrefs l₁ = averagePrefs l₂ := by
  unfold averagePrefs
  by_cases h1 : l₁ = []
  · subst h1
    rw [h.symm.eq_nil]
  · have h2 : l₂ ≠ [] := fun hnil => h1 (by rw [hnil] at h; exact h.eq_nil)
    rw [if_neg h1, if_neg h2, (h.map fun p => p.1).sum_eq,
      (h.map fun p => p.2.1).sum_eq, (h.map fun p => p.2.2).sum_eq, h.length_eq]

theorem updatesFor_perm {c₁ c₂ : List (ℕ × (ℚ × ℚ × ℚ))} (h : c₁.Perm c₂)
    (idx : ℕ) : (updatesFor c₁ idx).Perm (updatesFor c₂ idx) :=
  (h.filter _).map _

theorem applyUpdates_perm (pop : List Agent) {c₁ c₂ : List (ℕ × (ℚ × ℚ × ℚ))}
    (h : c₁.Perm c₂) : applyUpdates pop c₁ = applyUpdates pop c₂ := by
  unfold applyUpdates
  rw [List.mapIdx_eq_ofFn, List.mapIdx_eq_ofFn]
  congr 1
  funext i
  have hperm := updatesFor_perm h (i : ℕ)
  by_cases he : updatesFor c₁ (i : ℕ) = []
  · rw [he] at hperm ⊢
    rw [if_pos rfl, if_pos hperm.symm.eq_nil]
  · rw [if_neg he, if_neg (fun h2 => he ((h2 ▸ hperm).eq_nil)),
      averagePrefs_perm hperm]

/-! ## Helper lemmas: transition matrix -/

theorem lookupQ_mem {d : List ((ℕ × ℕ) × ℚ)} {key : ℕ × ℕ} {w : ℚ}
    (h : lookupQ d key = some w) : (key, w) ∈ d := by
  induction d with
  | nil => simp [lookupQ] at h
  | cons kv rest ih =>
    rw [lookupQ] at h
    split at h
    · rename_i heq
      obtain ⟨rfl⟩ := Option.some_injective _ h
      rw [heq]
      exact List.mem_cons_self _ _
    · exact List.mem_cons_of_mem _ (ih h)

theorem buildDisagreementMap_value_nonneg {va vb : ℕ} {ap bp : ℚ × ℚ × ℚ}
    (hap : 0 ≤ ap.1 ∧ 0 ≤ ap.2.1 ∧ 0 ≤ ap.2.2)
    (hbp : 0 ≤ bp.1 ∧ 0 ≤ bp.2.1 ∧ 0 ≤ bp.2.2) :
    ∀ kv ∈ buildDisagreementMap va vb ap bp, 0 ≤ kv.2 := by
  intro kv hkv
  obtain ⟨hap1, hap2, hap3⟩ := hap
  obtain ⟨hbp1, hbp2, hbp3⟩ := hbp
  simp only [buildDisagreementMap, List.mem_cons, List.not_mem_nil, or_false] at hkv
  rcases hkv with h | h | h | h | h | h | h | h | h <;> subst h <;>
    exact mul_nonneg (by assumption) (by assumption)

theorem matrixFromDisagreements_nonneg {d : List ((ℕ × ℕ) × ℚ)}
    (hd : ∀ kv ∈ d, 0 ≤ kv.2) (row col : ℕ) :
    0 ≤ matrixFromDisagreements d row col := by
  unfold matrixFromDisagreements
  cases h : lookupQ d (row, col) with
  | none => dsimp only; split <;> norm_num
  | some w => exact hd _ (lookupQ_mem h)

theorem transitionMatrix_nonneg {alice bob : Agent}
    (ha : TraitsOK alice) (hb : TraitsOK bob) (row col : ℕ) :
    0 ≤ transitionMatrix alice bob row col := by
  obtain ⟨ha1, ha2, ha3, ha4⟩ := ha
  obtain ⟨hb1, hb2, hb3, hb4⟩ := hb
  have hap := choiceProbabilities_prefOK ha1 ha2.le hb3 hb4.le
  have hbp := choiceProbabilities_prefOK hb1 hb2.le ha3 ha4.le
  unfold transitionMatrix
  refine matrixFromDisagreements_nonneg ?_ row col
  intro kv hkv
  rw [List.mem_append] at hkv
  rcases hkv with h | h
  · exact buildDisagreementMap_value_nonneg ⟨hap.1, hap.2.1, hap.2.2.1⟩
      ⟨hbp.1, hbp.2.1, hbp.2.2.1⟩ _ h
  · exact buildDisagreementMap_value_nonneg ⟨hbp.1, hbp.2.1, hbp.2.2.1⟩
      ⟨hbp.1, hbp.2.1, hbp.2.2.1⟩ _ h

theorem dmap_row_sum (pa1 pa2 pa3 pb1 pb2 pb3 qa1 qa2 qa3 qb1 qb2 qb3 : ℚ)
    (hpa : pa1 + pa2 + pa3 = 1) (hpb : pb1 + pb2 + pb3 = 1)
    (hqa : qa1 + qa2 + qa3 = 1) (hqb : qb1 + qb2 + qb3 = 1)
    (r : ℕ) (hr : r < 9) :
    ∑ c ∈ Finset.range 9,
      matrixFromDisagreements
        (buildDisagreementMap 1 2 (pa1, pa2, pa3) (pb1, pb2, pb3) ++
          buildDisagreementMap 2 1 (qa1, qa2, qa3) (qb1, qb2, qb3)) r c = 1 := by
  interval_cases r <;>
    simp only [Finset.sum_range_succ, Finset.sum_range_zero,
      matrixFromDisagreements, buildDisagreementMap, locate, lookupQ,
      List.cons_append, List.nil_append, Prod.mk.injEq] <;>
    norm_num
  · linear_combination (pb1 + pb2 + pb3) * hpa + hpb
  · linear_combination (qb1 + qb2 + qb3) * hqa + hqb

theorem transitionMatrix_row_sum (alice bob : Agent) {r : ℕ} (hr : r < 9) :
    ∑ c ∈ Finset.range 9, transitionMatrix alice bob r c = 1 := by
  have hpa := choiceProbabilities_sum alice.rho bob.pi
  have hpb := choiceProbabilities_sum bob.rho alice.pi
  unfold transitionMatrix
  rcases hcp : choiceProbabilities alice.rho bob.pi with ⟨pa1, pa2, pa3⟩
  rcases hcq : choiceProbabilities bob.rho alice.pi with ⟨pb1, pb2, pb3⟩
  rw [hcp] at hpa
  rw [hcq] at hpb
  dsimp only at hpa hpb
  exact dmap_row_sum pa1 pa2 pa3 pb1 pb2 pb3 pb1 pb2 pb3 pb1 pb2 pb3 hpa hpb hpb hpb r hr

/-! ## Helper lemmas: talk preserves the preference invariant -/

theorem tget_nonneg {t : ℚ × ℚ × ℚ} (h : 0 ≤ t.1 ∧ 0 ≤ t.2.1 ∧ 0 ≤ t.2.2)
    (n : ℕ) : 0 ≤ tget t n := by
  match n with
  | 0 => exact h.1
  | 1 => exact h.2.1
  | 2 => exact h.2.2
  | m + 3 => exact le_refl 0

theorem talkAliceVec_nonneg {alice bob : Agent} (ha : AgentOK alice)
    (hb : AgentOK bob) (i : ℕ) : 0 ≤ talkAliceVec alice bob i := by
  refine round3_nonneg (Finset.sum_nonneg fun j _ => ?_)
  refine Finset.sum_nonneg fun k _ => ?_
  refine mul_nonneg (mul_nonneg ?_ ?_) (transitionMatrix_nonneg ha.1 hb.1 _ _)
  · exact tget_nonneg ⟨ha.2.1, ha.2.2.1, ha.2.2.2.1⟩ _
  · exact tget_nonneg ⟨hb.2.1, hb.2.2.1, hb.2.2.2.1⟩ _

theorem talkBobVec_nonneg {alice bob : Agent} (ha : AgentOK alice)
    (hb : AgentOK bob) (j : ℕ) : 0 ≤ talkBobVec alice bob j := by
  refine round3_nonneg (Finset.sum_nonneg fun i _ => ?_)
  refine Finset.sum_nonneg fun k _ => ?_
  refine mul_nonneg (mul_nonneg ?_ ?_) (transitionMatrix_nonneg ha.1 hb.1 _ _)
  · exact tget_nonneg ⟨ha.2.1, ha.2.2.1, ha.2.2.2.1⟩ _
  · exact tget_nonneg ⟨hb.2.1, hb.2.2.1, hb.2.2.2.1⟩ _

theorem talk_prefOK {alice bob : Agent} (ha : AgentOK alice) (hb : AgentOK bob) :
    PrefOK (talk alice bob).1 ∧ PrefOK (talk alice bob).2 := by
  have hav := talkAliceVec_nonneg ha hb
  have hbv := talkBobVec_nonneg ha hb
  unfold talk PrefOK
  constructor
  · dsimp only
    split
    · norm_num
    · rename_i h
      push_neg at h
      refine ⟨div_nonneg (hav 0) h.le, div_nonneg (hav 1) h.le,
        div_nonneg (hav 2) h.le, ?_⟩
      rw [div_add_div_same, div_add_div_same, div_self h.ne']
  · dsimp only
    split
    · norm_num
    · rename_i h
      push_neg at h
      refine ⟨div_nonneg (hbv 0) h.le, div_nonneg (hbv 1) h.le,
        div_nonneg (hbv 2) h.le, ?_⟩
      rw [div_add_div_same, div_add_div_same, div_self h.ne']

/-! ## Helper lemmas: pairs, averaging, population update -/

theorem generateAllPairs_bounds {n : ℕ} :
    ∀ ij ∈ generateAllPairs n, ij.1 < n ∧ ij.2 < n := by
  intro ij hij
  simp only [generateAllPairs, List.mem_flatten, List.mem_map, List.mem_range] at hij
  obtain ⟨_, ⟨i, hi, rfl⟩, hj⟩ := hij
  simp only [List.mem_map] at hj
  obtain ⟨j, hj, rfl⟩ := hj
  rw [List.mem_range'_1] at hj
  exact ⟨by omega, by omega⟩

theorem sum_map_add3 (l : List (ℚ × ℚ × ℚ)) :
    (l.map fun p => p.1).sum + (l.map fun p => p.2.1).sum +
      (l.map fun p => p.2.2).sum = (l.map fun p => p.1 + p.2.1 + p.2.2).sum := by
  induction l with
  | nil => simp
  | cons p l ih => simp only [List.map_cons, List.sum_cons]; linarith

theorem averagePrefs_prefOK {l : List (ℚ × ℚ × ℚ)} (hne : l ≠ [])
    (h : ∀ p ∈ l, PrefOK p) : PrefOK (averagePrefs l) := by
  have hlen : (0 : ℚ) < l.length := by
    have := List.length_pos.mpr hne
    exact_mod_cast this
  have hsum : (l.map fun p => p.1).sum + (l.map fun p => p.2.1).sum +
      (l.map fun p => p.2.2).sum = l.length := by
    rw [sum_map_add3, List.map_congr_left fun p hp => (h p hp).2.2.2]
    simp
  unfold averagePrefs PrefOK
  rw [if_neg hne]
  refine ⟨?_, ?_, ?_, ?_⟩
  · exact div_nonneg (List.sum_nonneg fun x hx => by
      obtain ⟨p, hp, rfl⟩ := List.mem_map.mp hx
      exact (h p hp).1) hlen.le
  · exact div_nonneg (List.sum_nonneg fun x hx => by
      obtain ⟨p, hp, rfl⟩ := List.mem_map.mp hx
      exact (h p hp).2.1) hlen.le
  · exact div_nonneg (List.sum_nonneg fun x hx => by
      obtain ⟨p, hp, rfl⟩ := List.mem_map.mp hx
      exact (h p hp).2.2.1) hlen.le
  · rw [div_add_div_same, div_add_div_same, hsum, div_self hlen.ne']

theorem updatesFor_mem {contribs : List (ℕ × (ℚ × ℚ × ℚ))} {idx : ℕ}
    {p : ℚ × ℚ × ℚ} (h : p ∈ updatesFor contribs idx) :
    ∃ c ∈ contribs, c.2 = p := by
  simp only [updatesFor, List.mem_map, List.mem_filter] at h
  obtain ⟨c, ⟨hc, _⟩, rfl⟩ := h
  exact ⟨c, hc, rfl⟩

theorem talkContribs_prefOK {pop : List Agent} {pairs : List (ℕ × ℕ)}
    (hpop : ∀ a ∈ pop, AgentOK a)
    (hb : ∀ ij ∈ pairs, ij.1 < pop.length ∧ ij.2 < pop.length) :
    ∀ c ∈ talkContribs pop pairs, PrefOK c.2 := by
  intro c hc
  simp only [talkContribs, List.mem_flatten, List.mem_map] at hc
  obtain ⟨_, ⟨ij, hij, rfl⟩, hc⟩ := hc
  obtain ⟨h1, h2⟩ := hb ij hij
  have ha1 : AgentOK (pop.getD ij.1 defaultAgent) := by
    rw [List.getD_eq_getElem pop defaultAgent h1]
    exact hpop _ (List.getElem_mem h1)
  have ha2 : AgentOK (pop.getD ij.2 defaultAgent) := by
    rw [List.getD_eq_getElem pop defaultAgent h2]
    exact hpop _ (List.getElem_mem h2)
  have htalk := talk_prefOK ha1 ha2
  simp only [List.mem_cons, List.not_mem_nil, or_false] at hc
  rcases hc with rfl | rfl
  · exact htalk.1
  · exact htalk.2

theorem applyUpdates_length (pop : List Agent)
    (contribs : List (ℕ × (ℚ × ℚ × ℚ))) :
    (applyUpdates pop contribs).length = pop.length := by
  simp [applyUpdates]

theorem applyUpdates_get (pop : List Agent) (contribs : List (ℕ × (ℚ × ℚ × ℚ)))
    (idx : ℕ) (h : idx < pop.length)
    (h2 : idx < (applyUpdates pop contribs).length) :
    (applyUpdates pop contribs).get ⟨idx, h2⟩ =
      if updatesFor contribs idx = [] then pop.get ⟨idx, h⟩
      else ⟨(pop.get ⟨idx, h⟩).rho, (pop.get ⟨idx, h⟩).pi,
        averagePrefs (updatesFor contribs idx)⟩ := by
  simp only [applyUpdates, List.get_eq_getElem, List.getElem_mapIdx]

theorem tick_length (cs : ℕ) (pop : List Agent) :
    (tick cs pop).length = pop.length :=
  applyUpdates_length _ _

theorem tick_agentOK {cs : ℕ} (hcs : 0 < cs) {pop : List Agent}
    (hpop : ∀ a ∈ pop, AgentOK a) : ∀ a ∈ tick cs pop, AgentOK a := by
  intro a ha
  simp only [tick] at ha
  rw [chunksOf_flatten hcs] at ha
  rw [List.mem_iff_getElem] at ha
  obtain ⟨idx, hlt, rfl⟩ := ha
  have h : idx < pop.length := by rwa [applyUpdates_length] at hlt
  have heq := applyUpdates_get pop (talkContribs pop (generateAllPairs pop.length)) idx h hlt
  rw [List.get_eq_getElem] at heq
  rw [heq]
  have hcontrib := talkContribs_prefOK hpop
    (fun ij hij => generateAllPairs_bounds ij hij)
  split
  · exact hpop _ (List.get_mem pop idx h)
  · rename_i hne
    refine ⟨(hpop _ (List.get_mem pop idx h)).1, ?_⟩
    refine averagePrefs_prefOK hne fun p hp => ?_
    obtain ⟨c, hc, rfl⟩ := updatesFor_mem hp
    exact hcontrib c hc

/-! ## Helper lemmas: seeding and the population trace -/

theorem seedPopAux_length (n : ℕ) (st : ℕ) : (seedPopAux n st).1.length = n := by
  induction n generalizing st with
  | zero => rfl
  | succ n ih => simp [seedPopAux, ih]

theorem seedPopAux_agentOK (n : ℕ) (st : ℕ) :
    ∀ a ∈ (seedPopAux n st).1, AgentOK a := by
  induction n generalizing st with
  | zero => intro a ha; simp [seedPopAux] at ha
  | succ n ih =>
    intro a ha
    simp only [seedPopAux, List.mem_cons] at ha
    rcases ha with rfl | ha
    · have h1 := uniform_mem_Ico st
      have h2 := uniform_mem_Ico (rngNext st)
      have h3 := uniform_mem_Ico (rngNext (rngNext st))
      exact ⟨⟨h1.1, h1.2, h2.1, h2.2⟩,
        ⟨h3.1, by simpa using h3.2.le, le_refl 0, by ring⟩⟩
    · exact ih _ a ha

theorem popTrace_length (agents : ℕ) (seed : ℤ) (cs n : ℕ) :
    (popTrace agents seed cs n).length = agents := by
  induction n with
  | zero => exact seedPopAux_length _ _
  | succ n ih =>
    rw [popTrace, Function.iterate_succ_apply', ← popTrace, tick_length, ih]

theorem popTrace_agentOK (agents : ℕ) (seed : ℤ) {cs : ℕ} (hcs : 0 < cs)
    (n : ℕ) : ∀ a ∈ popTrace agents seed cs n, AgentOK a := by
  induction n with
  | zero => exact seedPopAux_agentOK _ _
  | succ n ih =>
    rw [popTrace, Function.iterate_succ_apply', ← popTrace]
    exact tick_agentOK hcs ih

/-! ## Helper lemmas: vote tally -/

theorem bumpVote_sum (m : List (ℕ × ℕ)) (k : ℕ) :
    ((bumpVote m k).map fun kv => kv.2).sum = (m.map fun kv => kv.2).sum + 1 := by
  induction m with
  | nil => simp [bumpVote]
  | cons kv rest ih =>
    obtain ⟨k2, c⟩ := kv
    rw [bumpVote]
    split <;> simp [ih] <;> omega

theorem bumpVote_pos {m : List (ℕ × ℕ)} {k : ℕ} (h : ∀ kv ∈ m, 0 < kv.2) :
    ∀ kv ∈ bumpVote m k, 0 < kv.2 := by
  induction m with
  | nil =>
    intro kv hkv
    simp only [bumpVote, List.mem_cons, List.not_mem_nil, or_false] at hkv
    subst hkv
    norm_num
  | cons kv2 rest ih =>
    obtain ⟨k2, c⟩ := kv2
    intro kv hkv
    rw [bumpVote] at hkv
    split at hkv <;> rcases List.mem_cons.mp hkv with rfl | hmem
    · exact Nat.succ_pos _
    · exact h _ (List.mem_cons_of_mem _ hmem)
    · exact h _ (List.mem_cons_self _ _)
    · exact ih (fun kv h2 => h _ (List.mem_cons_of_mem _ h2)) _ hmem

theorem foldl_voteStep_sum (pop : List Agent) :
    ∀ (m : List (ℕ × ℕ)) (st : ℕ),
      ((pop.foldl voteStep (m, st)).1.map fun kv => kv.2).sum =
        (m.map fun kv => kv.2).sum + pop.length := by
  induction pop with
  | nil => intro m st; simp
  | cons a pop ih =>
    intro m st
    rw [List.foldl_cons]
    show ((pop.foldl voteStep (bumpVote m _, rngNext st)).1.map fun kv => kv.2).sum = _
    rw [ih, bumpVote_sum]
    simp
    omega

theorem foldl_voteStep_pos (pop : List Agent) :
    ∀ (m : List (ℕ × ℕ)) (st : ℕ), (∀ kv ∈ m, 0 < kv.2) →
      ∀ kv ∈ (pop.foldl voteStep (m, st)).1, 0 < kv.2 := by
  induction pop with
  | nil => intro m st h; simpa using h
  | cons a pop ih =>
    intro m st h
    rw [List.foldl_cons]
    exact ih _ _ (bumpVote_pos h)

theorem tallyVotes_sum (pop : List Agent) (st : ℕ) :
    ((tallyVotes pop st).1.map fun kv => kv.2).sum = pop.length := by
  unfold tallyVotes
  rw [foldl_voteStep_sum]
  simp

theorem tallyVotes_pos (pop : List Agent) (st : ℕ) :
    ∀ kv ∈ (tallyVotes pop st).1, 0 < kv.2 :=
  foldl_voteStep_pos pop [] st (by simp)

/-- Vote-tally soundness of a Stats value: counts sum to the agent total and
every present key holds a positive count. -/
def StatsVoteOK (s : Stats) : Prop :=
  ((s.vote_results.map fun kv => kv.2).sum = s.total_agents) ∧
    ∀ kv ∈ s.vote_results, 0 < kv.2

theorem statsWithVotes_voteOK (pop : List Agent) (st : ℕ) :
    StatsVoteOK { getStatistics pop with vote_results := (tallyVotes pop st).1 } := by
  constructor
  · show ((tallyVotes pop st).1.map fun kv => kv.2).sum = (getStatistics pop).total_agents
    rw [tallyVotes_sum]
    rfl
  · exact tallyVotes_pos pop st

theorem runLoop_voteOK (cs : ℕ) :
    ∀ (n : ℕ) (pop : List Agent) (st : ℕ) (stats : Stats),
      StatsVoteOK stats → StatsVoteOK (runLoop cs n pop st stats) := by
  intro n
  induction n with
  | zero => intro pop st stats h; exact h
  | succ n ih =>
    intro pop st stats _
    rw [runLoop]
    exact ih _ _ _ (statsWithVotes_voteOK _ _)

/-! ## Helper lemmas: ticks with empty contribution sets, traits -/

theorem applyUpdates_nil (pop : List Agent) : applyUpdates pop [] = pop := by
  unfold applyUpdates
  have h : ∀ idx : ℕ, updatesFor [] idx = [] := fun _ => rfl
  rw [List.mapIdx_eq_ofFn]
  simp only [h, if_pos]
  exact List.ofFn_get pop

theorem tick_singleton {cs : ℕ} {pop : List Agent} (h : pop.length = 1) :
    tick cs pop = pop := by
  have hp : generateAllPairs pop.length = [] := by rw [h]; rfl
  simp only [tick, hp]
  exact applyUpdates_nil pop

theorem runLoop_prefs_fixed (cs : ℕ) :
    ∀ (n : ℕ) (pop : List Agent) (st : ℕ) (stats : Stats),
      tick cs pop = pop →
      stats.agent_preferences = (getStatistics pop).agent_preferences →
      (runLoop cs n pop st stats).agent_preferences =
        (getStatistics pop).agent_preferences := by
  intro n
  induction n with
  | zero => intro pop st stats _ hs; exact hs
  | succ n ih =>
    intro pop st stats ht hs
    rw [runLoop, ht]
    exact ih _ _ _ ht rfl

theorem tick_get_traits (cs : ℕ) (pop : List Agent) (idx : ℕ)
    (h : idx < pop.length) (h2 : idx < (tick cs pop).length) :
    ((tick cs pop).get ⟨idx, h2⟩).rho = (pop.get ⟨idx, h⟩).rho ∧
      ((tick cs pop).get ⟨idx, h2⟩).pi = (pop.get ⟨idx, h⟩).pi := by
  have h2' : idx < (applyUpdates pop
      (talkContribs pop (chunksOf cs (generateAllPairs pop.length)).flatten)).length := h2
  show ((applyUpdates pop _).get ⟨idx, h2'⟩).rho = _ ∧
    ((applyUpdates pop _).get ⟨idx, h2'⟩).pi = _
  rw [applyUpdates_get pop _ idx h h2']
  split <;> exact ⟨rfl, rfl⟩

theorem popTrace_get_traits (agents : ℕ) (seed : ℤ) (cs : ℕ) (n idx : ℕ)
    (h : idx < (popTrace agents seed cs n).length)
    (h0 : idx < (popTrace agents seed cs 0).length) :
    ((popTrace agents seed cs n).get ⟨idx, h⟩).rho =
        ((popTrace agents seed cs 0).get ⟨idx, h0⟩).rho ∧
      ((popTrace agents seed cs n).get ⟨idx, h⟩).pi =
        ((popTrace agents seed cs 0).get ⟨idx, h0⟩).pi := by
  induction n with
  | zero => exact ⟨rfl, rfl⟩
  | succ n ih =>
    have hlen : idx < (popTrace agents seed cs n).length := by
      rw [popTrace_length]
      rw [popTrace_length] at h0
      exact h0
    have hstep : popTrace agents seed cs (n + 1) = tick cs (popTrace agents seed cs n) := by
      rw [popTrace, Function.iterate_succ_apply', ← popTrace]
    have h' : idx < (tick cs (popTrace agents seed cs n)).length := by
      rw [← hstep]; exact h
    have htr := tick_get_traits cs (popTrace agents seed cs n) idx hlen h'
    have hih := ih hlen
    have hgeteq := List.get_of_eq hstep (⟨idx, h⟩ : Fin _)
    constructor
    · rw [hgeteq]
      exact htr.1.trans hih.1
    · rw [hgeteq]
      exact htr.2.trans hih.2

/-! ## Helper lemmas: chunk-size and scheduling independence -/

theorem tick_chunk_indep {cs₁ cs₂ : ℕ} (h₁ : 0 < cs₁) (h₂ : 0 < cs₂)
    (pop : List Agent) : tick cs₂ pop = tick cs₁ pop := by
  simp only [tick, chunksOf_flatten h₁, chunksOf_flatten h₂]

theorem tickSched_eq_tick {cs₁ cs₂ : ℕ} (h₁ : 0 < cs₁) (h₂ : 0 < cs₂)
    {sched : List (List (ℕ × ℕ)) → List (List (ℕ × ℕ))}
    (hs : ∀ l, (sched l).Perm l) (pop : List Agent) :
    tickSched cs₂ sched pop = tick cs₁ pop := by
  simp only [tickSched, tick, chunksOf_flatten h₁]
  have hperm : ((sched (chunksOf cs₂ (generateAllPairs pop.length))).map
        fun b => talkContribs pop b).flatten.Perm
      (talkContribs pop (generateAllPairs pop.length)) := by
    have h1 := (hs (chunksOf cs₂ (generateAllPairs pop.length))).map
      fun b => talkContribs pop b
    refine (flatten_perm h1).trans ?_
    rw [← talkContribs_flatten, chunksOf_flatten h₂]
  exact applyUpdates_perm pop hperm

theorem runLoop_chunk_indep {cs₁ cs₂ : ℕ} (h₁ : 0 < cs₁) (h₂ : 0 < cs₂) :
    ∀ (n : ℕ) (pop : List Agent) (st : ℕ) (stats : Stats),
      runLoop cs₂ n pop st stats = runLoop cs₁ n pop st stats := by
  intro n
  induction n with
  | zero => intro pop st stats; rfl
  | succ n ih =>
    intro pop st stats
    rw [runLoop, runLoop, tick_chunk_indep h₁ h₂]
    exact ih _ _ _

theorem runLoopSched_eq {cs₁ cs₂ : ℕ} (h₁ : 0 < cs₁) (h₂ : 0 < cs₂)
    {sched : ℕ → List (List (ℕ × ℕ)) → List (List (ℕ × ℕ))}
    (hs : ∀ n l, (sched n l).Perm l) :
    ∀ (n : ℕ) (pop : List Agent) (st : ℕ) (stats : Stats),
      runLoopSched cs₂ sched n pop st stats = runLoop cs₁ n pop st stats := by
  intro n
  induction n with
  | zero => intro pop st stats; rfl
  | succ n ih =>
    intro pop st stats
    rw [runLoopSched, runLoop, tickSched_eq_tick h₁ h₂ (hs n)]
    exact ih _ _ _

theorem runPureSched_eq {cs₁ cs₂ : ℕ} (h₁ : 0 < cs₁) (h₂ : 0 < cs₂)
    {sched : ℕ → List (List (ℕ × ℕ)) → List (List (ℕ × ℕ))}
    (hs : ∀ n l, (sched n l).Perm l) (agents iterations : ℕ) (seed : ℤ) :
    runPureSched agents iterations seed cs₂ sched =
      runPure agents iterations seed cs₁ := by
  unfold runPureSched runPure
  exact runLoopSched_eq h₁ h₂ hs _ _ _ _

theorem runPure_chunk_indep {cs₁ cs₂ : ℕ} (h₁ : 0 < cs₁) (h₂ : 0 < cs₂)
    (agents iterations : ℕ) (seed : ℤ) :
    runPure agents iterations seed cs₂ = runPure agents iterations seed cs₁ := by
  unfold runPure
  exact runLoop_chunk_indep h₁ h₂ _ _ _ _

/-! ## Claim theorems -/

/-- C1 (code bug evidence): for the option pair (2,1), the source builds the
disagreement weights from `bob_probs` twice (sim.py line 89), so with Alice
⟨ρ=1/2, π=1/2⟩ and Bob ⟨ρ=1/2, π=3/4⟩ the matrix entry for (2,1)→(2,1) is
pb1*pb1 = 1/9, which is not the product of any of Alice's choice-probability
components (1/7, 3/7, 3/7) with any of Bob's (1/3, 1/3, 1/3), contradicting
the claim that every off-diagonal weight for pair (2,1) is an
Alice-component times a Bob-component. -/
theorem C1_pair21_uses_bob_probs_twice :
    transitionMatrix ⟨1/2, 1/2, (1, 0, 0)⟩ ⟨1/2, 3/4, (1, 0, 0)⟩ 3 3 = 1/9 ∧
    choiceProbabilities ((1:ℚ)/2) (3/4) = (1/7, 3/7, 3/7) ∧
    choiceProbabilities ((1:ℚ)/2) (1/2) = (1/3, 1/3, 1/3) ∧
    ∀ i < 3, ∀ j < 3,
      tget (choiceProbabilities ((1:ℚ)/2) (3/4)) i *
        tget (choiceProbabilities ((1:ℚ)/2) (1/2)) j ≠
      transitionMatrix ⟨1/2, 1/2, (1, 0, 0)⟩ ⟨1/2, 3/4, (1, 0, 0)⟩ 3 3 := by
  have hA : choiceProbabilities ((1:ℚ)/2) (3/4) = (1/7, 3/7, 3/7) := by
    unfold choiceProbabilities normalizeTriple
    norm_num
  have hB : choiceProbabilities ((1:ℚ)/2) (1/2) = (1/3, 1/3, 1/3) := by
    unfold choiceProbabilities normalizeTriple
    norm_num
  have hT : transitionMatrix ⟨1/2, 1/2, (1, 0, 0)⟩ ⟨1/2, 3/4, (1, 0, 0)⟩ 3 3 = 1/9 := by
    simp only [transitionMatrix]
    rw [hA, hB]
    norm_num [matrixFromDisagreements, buildDisagreementMap, locate, lookupQ]
  refine ⟨hT, hA, hB, ?_⟩
  intro i hi j hj
  rw [hA, hB, hT]
  interval_cases i <;> interval_cases j <;> norm_num [tget]

/-- C2: the Stats of a run and the population produced by a tick are
independent of chunk size, of worker count, and of the order in which the
worker pool delivers batch results (modelled as an arbitrary permutation
`sched` of the batch list), given valid inputs. -/
theorem C2_batch_schedule_independence
    (agents iterations : ℕ) (seed : ℤ) (cs₁ cs₂ : ℕ)
    (sched : ℕ → List (List (ℕ × ℕ)) → List (List (ℕ × ℕ)))
    (h₁ : 0 < cs₁) (h₂ : 0 < cs₂) (hs : ∀ n l, (sched n l).Perm l)
    (pop : List Agent) (a i s c₁ c₂ p₁ p₂ : ℤ)
    (hc₁ : 0 < c₁) (hc₂ : 0 < c₂) (hp₁ : 1 ≤ p₁) (hp₂ : 1 ≤ p₂) :
    runPureSched agents iterations seed cs₂ sched =
        runPure agents iterations seed cs₁ ∧
      tickSched cs₂ (sched 0) pop = tick cs₁ pop ∧
      run a i s c₁ p₁ = run a i s c₂ p₂ := by
  refine ⟨runPureSched_eq h₁ h₂ hs agents iterations seed,
    tickSched_eq_tick h₁ h₂ (hs 0) pop, ?_⟩
  unfold run
  by_cases hv : 0 < a ∧ 0 ≤ i
  · rw [if_pos ⟨hv.1, hv.2, hc₁, hp₁⟩, if_pos ⟨hv.1, hv.2, hc₂, hp₂⟩]
    exact congrArg some (runPure_chunk_indep (by omega) (by omega) _ _ _)
  · rw [if_neg (by tauto), if_neg (by tauto)]

/-- C2 witness: the independence theorem applied at concrete inputs,
with the identity scheduling. -/
theorem C2_witness :
    (0 < 1 ∧ 0 < 2 ∧ (0:ℤ) < 7 ∧ (0:ℤ) < 3 ∧ (1:ℤ) ≤ 1 ∧ (1:ℤ) ≤ 4) ∧
    (runPureSched 2 1 42 2 (fun _ l => l) = runPure 2 1 42 1 ∧
      tickSched 2 ((fun (_ : ℕ) (l : List (List (ℕ × ℕ))) => l) 0) [] = tick 1 [] ∧
      run 2 1 42 7 1 = run 2 1 42 3 4) :=
  ⟨by norm_num,
    C2_batch_schedule_independence 2 1 42 1 2 (fun _ l => l) (by norm_num)
      (by norm_num) (fun _ l => List.Perm.refl l) [] 2 1 42 7 3 1 4
      (by norm_num) (by norm_num) (by norm_num) (by norm_num)⟩

/-- C3: every agent of the population trace — after seeding and after each
tick's population replacement — has non-negative preference components whose
sum is within 1e-9 of 1 (here it is exactly 1 in exact arithmetic). -/
theorem C3_preference_invariant (agents : ℕ) (seed : ℤ) (cs : ℕ) (hcs : 0 < cs)
    (n : ℕ) (a : Agent) (ha : a ∈ popTrace agents seed cs n) :
    0 ≤ a.preferences.1 ∧ 0 ≤ a.preferences.2.1 ∧ 0 ≤ a.preferences.2.2 ∧
      |a.preferences.1 + a.preferences.2.1 + a.preferences.2.2 - 1| ≤
        1 / 1000000000 := by
  obtain ⟨-, h1, h2, h3, h4⟩ := popTrace_agentOK agents seed hcs n a ha
  refine ⟨h1, h2, h3, ?_⟩
  rw [h4]
  norm_num

/-- C3 witness: the invariant instantiated on the seeded single-agent
population at tick 0. -/
theorem C3_witness :
    0 < 1 ∧
    (0 ≤ ((popTrace 1 0 1 0).getD 0 defaultAgent).preferences.1 ∧
      0 ≤ ((popTrace 1 0 1 0).getD 0 defaultAgent).preferences.2.1 ∧
      0 ≤ ((popTrace 1 0 1 0).getD 0 defaultAgent).preferences.2.2 ∧
      |((popTrace 1 0 1 0).getD 0 defaultAgent).preferences.1 +
          ((popTrace 1 0 1 0).getD 0 defaultAgent).preferences.2.1 +
          ((popTrace 1 0 1 0).getD 0 defaultAgent).preferences.2.2 - 1| ≤
        1 / 1000000000) :=
  ⟨by norm_num,
    C3_preference_invariant 1 0 1 (by norm_num) 0 _ (by
      have hl : 0 < (popTrace 1 0 1 0).length := by
        rw [popTrace_length]
        norm_num
      rw [List.getD_eq_getElem _ _ hl]
      exact List.getElem_mem hl)⟩

/-- C4 (code bug evidence): the source's sweep has no minimum-size
parameter; it always runs the inclusive range starting at 2, so the emitted
size list for `max_agents = 5` is [2,3,4,5] (4 runs) and the first size is 2
for every max_agents. -/
theorem C4_sweep_sizes_fixed_minimum :
    sweepSizes 5 = [2, 3, 4, 5] ∧ (sweepSizes 5).length = 4 ∧
      ∀ m : ℕ, (sweepSizes m).headD 2 = 2 := by
  refine ⟨by decide, by decide, fun m => ?_⟩
  unfold sweepSizes
  cases h : m - 1 with
  | zero => rfl
  | succ k => rw [List.range'_succ]; rfl

/-- C5: run rejects its input (returns no Stats, performing no simulation
work) whenever agent_count ≤ 0, iterations < 0, chunk_size ≤ 0, or
worker_count < 1. -/
theorem C5_invalid_input_rejected (a i s c p : ℤ)
    (h : a ≤ 0 ∨ i < 0 ∨ c ≤ 0 ∨ p < 1) : run a i s c p = none := by
  unfold run
  rw [if_neg]
  rintro ⟨h1, h2, h3, h4⟩
  rcases h with h | h | h | h <;> omega

/-- C5 witness: a zero agent count is rejected. -/
theorem C5_witness :
    ((0:ℤ) ≤ 0 ∨ (1:ℤ) < 0 ∨ (256:ℤ) ≤ 0 ∨ (1:ℤ) < 1) ∧
      run 0 1 42 256 1 = none :=
  ⟨Or.inl le_rfl, C5_invalid_input_rejected 0 1 42 256 1 (Or.inl le_rfl)⟩

/-- C6: seeds (negative included) are reduced mod 2^64 to a non-negative
state below 2^64; next() replaces the state by
(6364136223846793005 * state + 1442695040888963407) mod 2^64 and returns the
new state; uniform() advances once and returns state / 2^64, in [0, 1). -/
theorem C6_rng_contract (seed : ℤ) (state : ℕ) :
    ((rngInit seed : ℤ) = seed % 2 ^ 64 ∧ rngInit seed < 2 ^ 64) ∧
    rngNext state = (6364136223846793005 * state + 1442695040888963407) % 2 ^ 64 ∧
    (rngUniform state).1 = rngNext state ∧
    (rngUniform state).2 = (rngNext state : ℚ) / 2 ^ 64 ∧
    0 ≤ (rngUniform state).2 ∧ (rngUniform state).2 < 1 := by
  have hm : ((2:ℤ) ^ 64) ≠ 0 := by norm_num
  refine ⟨⟨?_, ?_⟩, rfl, rfl, ?_, (uniform_mem_Ico state).1, (uniform_mem_Ico state).2⟩
  · unfold rngInit
    rw [Int.toNat_of_nonneg (Int.emod_nonneg seed (by norm_num [RNG_MOD]))]
    norm_num [RNG_MOD]
  · unfold rngInit
    have h1 := Int.emod_nonneg seed (show ((RNG_MOD : ℤ)) ≠ 0 by norm_num [RNG_MOD])
    have h2 := Int.emod_lt_of_pos seed (show (0:ℤ) < (RNG_MOD : ℤ) by norm_num [RNG_MOD])
    simp only [RNG_MOD] at h1 h2 ⊢
    omega
  · show (rngNext state : ℚ) / ((RNG_MOD : ℕ) : ℚ) = (rngNext state : ℚ) / 2 ^ 64
    norm_num [RNG_MOD]

/-- C7: every Stats produced by run carries a vote tally whose counts sum to
total_agents, with every present key holding at least one vote; the
assignment itself is the cumulative rule of voteOption, drawn once per agent
in index order by tallyVotes. -/
theorem C7_vote_tally (a i s c p : ℤ) (stats : Stats)
    (h : run a i s c p = some stats) :
    ((stats.vote_results.map fun kv => kv.2).sum = stats.total_agents) ∧
      ∀ kv ∈ stats.vote_results, 0 < kv.2 := by
  unfold run at h
  split at h
  · injection h with h
    subst h
    exact runLoop_voteOK _ _ _ _ _ (statsWithVotes_voteOK _ _)
  · exact absurd h (by simp)

/-- C7 witness: the tally properties hold on the Stats of a concrete run. -/
theorem C7_witness :
    run 2 1 42 256 1 = some (runPure 2 1 42 256) ∧
    (((runPure 2 1 42 256).vote_results.map fun kv => kv.2).sum =
        (runPure 2 1 42 256).total_agents) ∧
      ∀ kv ∈ (runPure 2 1 42 256).vote_results, 0 < kv.2 := by
  have h : run 2 1 42 256 1 = some (runPure 2 1 42 256) := rfl
  exact ⟨h, (C7_vote_tally 2 1 42 256 1 _ h).1, (C7_vote_tally 2 1 42 256 1 _ h).2⟩

/-- C8: with a single agent the pairing set is empty, and the
agent_preferences of the Stats returned by run equal those of the snapshot
taken immediately after seeding, for any number of iterations. -/
theorem C8_singleton_idempotent (iters seed cs procs : ℤ)
    (hi : 0 ≤ iters) (hcs : 0 < cs) (hp : 1 ≤ procs) :
    generateAllPairs 1 = [] ∧
    (run 1 iters seed cs procs).map Stats.agent_preferences =
      some (getStatistics (seedPopAux 1 (rngInit seed)).1).agent_preferences := by
  refine ⟨rfl, ?_⟩
  unfold run
  rw [if_pos ⟨by norm_num, hi, hcs, hp⟩, Option.map_some']
  exact congrArg some (runLoop_prefs_fixed _ _ _ _ _
    (tick_singleton (seedPopAux_length 1 _)) rfl)

/-- C8 witness: three iterations on one agent leave the seeded preferences
unchanged. -/
theorem C8_witness :
    ((0:ℤ) ≤ 3 ∧ (0:ℤ) < 256 ∧ (1:ℤ) ≤ 1) ∧
    (generateAllPairs 1 = [] ∧
      (run 1 3 42 256 1).map Stats.agent_preferences =
        some (getStatistics (seedPopAux 1 (rngInit 42)).1).agent_preferences) :=
  ⟨by norm_num,
    C8_singleton_idempotent 3 42 256 1 (by norm_num) (by norm_num) (by norm_num)⟩

/-- C9: at every tick of the trace each agent keeps the resistance and
persuasion drawn for its index at seeding, and any agent index receiving no
contribution in a tick keeps its entire prior value unchanged. -/
theorem C9_traits_preserved_and_frame (agents : ℕ) (seed : ℤ) (cs : ℕ)
    (n idx : ℕ) (h : idx < (popTrace agents seed cs n).length)
    (h0 : idx < (popTrace agents seed cs 0).length) :
    (((popTrace agents seed cs n).get ⟨idx, h⟩).rho =
        ((popTrace agents seed cs 0).get ⟨idx, h0⟩).rho ∧
      ((popTrace agents seed cs n).get ⟨idx, h⟩).pi =
        ((popTrace agents seed cs 0).get ⟨idx, h0⟩).pi) ∧
    ∀ (pop : List Agent) (contribs : List (ℕ × (ℚ × ℚ × ℚ)))
      (hp : idx < pop.length) (hq : idx < (applyUpdates pop contribs).length),
      (∀ c ∈ contribs, c.1 ≠ idx) →
      (applyUpdates pop contribs).get ⟨idx, hq⟩ = pop.get ⟨idx, hp⟩ := by
  refine ⟨popTrace_get_traits agents seed cs n idx h h0, ?_⟩
  intro pop contribs hp hq hno
  have hnil : updatesFor contribs idx = [] := by
    unfold updatesFor
    rw [List.filter_eq_nil_iff.mpr fun c hc => by simpa using hno c hc]
    rfl
  rw [applyUpdates_get pop contribs idx hp hq, if_pos hnil]

/-- C9 witness: the trait-preservation and frame properties at a concrete
run (one agent, one tick, index 0). -/
theorem C9_witness :
    (0 < (popTrace 1 0 1 1).length ∧ 0 < (popTrace 1 0 1 0).length) ∧
    ((((popTrace 1 0 1 1).get ⟨0, by rw [popTrace_length]; norm_num⟩).rho =
        ((popTrace 1 0 1 0).get ⟨0, by rw [popTrace_length]; norm_num⟩).rho ∧
      (((popTrace 1 0 1 1).get ⟨0, by rw [popTrace_length]; norm_num⟩).pi =
        ((popTrace 1 0 1 0).get ⟨0, by rw [popTrace_length]; norm_num⟩).pi)) ∧
    ∀ (pop : List Agent) (contribs : List (ℕ × (ℚ × ℚ × ℚ)))
      (hp : 0 < pop.length) (hq : 0 < (applyUpdates pop contribs).length),
      (∀ c ∈ contribs, c.1 ≠ 0) →
      (applyUpdates pop contribs).get ⟨0, hq⟩ = pop.get ⟨0, hp⟩) :=
  ⟨⟨by rw [popTrace_length]; norm_num, by rw [popTrace_length]; norm_num⟩,
    C9_traits_preserved_and_frame 1 0 1 1 0 (by rw [popTrace_length]; norm_num)
      (by rw [popTrace_length]; norm_num)⟩

/-- C10: for agents with resistance and persuasion in [0, 1), every row of
the 9×9 transition matrix sums exactly to 1 (the two explicitly filled rows
carry products of normalized triples, every other row is an identity row),
so the vector-matrix product of _talk conserves total joint mass. -/
theorem C10_row_stochastic (alice bob : Agent)
    (ha1 : 0 ≤ alice.rho) (ha2 : alice.rho < 1)
    (ha3 : 0 ≤ alice.pi) (ha4 : alice.pi < 1)
    (hb1 : 0 ≤ bob.rho) (hb2 : bob.rho < 1)
    (hb3 : 0 ≤ bob.pi) (hb4 : bob.pi < 1) :
    (∀ r < 9, ∑ c ∈ Finset.range 9, transitionMatrix alice bob r c = 1) ∧
    (∀ v : ℕ → ℚ,
      ∑ j ∈ Finset.range 9, (∑ k ∈ Finset.range 9, v k * transitionMatrix alice bob k j) =
        ∑ k ∈ Finset.range 9, v k) ∧
    ∑ j ∈ Finset.range 9, talkR alice bob j = ∑ k ∈ Finset.range 9, talkV alice bob k := by
  have hmass : ∀ v : ℕ → ℚ,
      ∑ j ∈ Finset.range 9, (∑ k ∈ Finset.range 9, v k * transitionMatrix alice bob k j) =
        ∑ k ∈ Finset.range 9, v k := by
    intro v
    rw [Finset.sum_comm]
    refine Finset.sum_congr rfl fun k hk => ?_
    rw [← Finset.mul_sum, transitionMatrix_row_sum alice bob (Finset.mem_range.mp hk),
      mul_one]
  exact ⟨fun r hr => transitionMatrix_row_sum alice bob hr, hmass,
    hmass (talkV alice bob)⟩

/-- C10 witness: row-stochasticity on concrete agents with traits in
[0, 1). -/
theorem C10_witness :
    ((0:ℚ) ≤ 1/2 ∧ (1:ℚ)/2 < 1 ∧ (0:ℚ) ≤ 3/4 ∧ (3:ℚ)/4 < 1) ∧
    ((∀ r < 9, ∑ c ∈ Finset.range 9,
        transitionMatrix ⟨1/2, 1/2, (1, 0, 0)⟩ ⟨1/2, 3/4, (1, 0, 0)⟩ r c = 1) ∧
      (∀ v : ℕ → ℚ, ∑ j ∈ Finset.range 9, (∑ k ∈ Finset.range 9,
          v k * transitionMatrix ⟨1/2, 1/2, (1, 0, 0)⟩ ⟨1/2, 3/4, (1, 0, 0)⟩ k j) =
        ∑ k ∈ Finset.range 9, v k) ∧
      ∑ j ∈ Finset.range 9, talkR ⟨1/2, 1/2, (1, 0, 0)⟩ ⟨1/2, 3/4, (1, 0, 0)⟩ j =
        ∑ k ∈ Finset.range 9, talkV ⟨1/2, 1/2, (1, 0, 0)⟩ ⟨1/2, 3/4, (1, 0, 0)⟩ k) :=
  ⟨by norm_num,
    C10_row_stochastic ⟨1/2, 1/2, (1, 0, 0)⟩ ⟨1/2, 3/4, (1, 0, 0)⟩
      (by norm_num) (by norm_num) (by norm_num) (by norm_num)
      (by norm_num) (by norm_num) (by norm_num) (by norm_num)⟩

end MiniSim

